import Mathlib

/-!
# EtherCAT XDP filter (`realtime-helpers/src/xdp/xdp_filter_ethercat.c`)

A shallow embedding of the two C functions of the file, `filter_eth_type` and
`xtreme_filter`, over an explicit machine state: the `xdp_md` context, the byte
memory, and a log of the packet addresses that were loaded.  A load outside the
packet window `[data, data_end)` is a fault (`none`).

Machine integers are natural numbers reduced modulo `2^w` at the places where
the C code fixes a width.
-/

namespace XdpFilterEthercat

/-! ## Constants and types of the included kernel headers -/

/-- Modelled from the spec: one of the hook's action codes this program must
never produce.  The header `<linux/bpf.h>` is not part of the source tree; the
integers are those of its `enum xdp_action`, here `XDP_ABORTED = 0`. -/
def XDP_ABORTED : Int := 0

/-- Modelled from the spec: `enum xdp_action` of `<linux/bpf.h>`; the "discard
immediately" action code, `XDP_DROP = 1`. -/
def XDP_DROP : Int := 1

/-- Modelled from the spec: `enum xdp_action` of `<linux/bpf.h>`; the "continue
to normal processing" action code, `XDP_PASS = 2`. -/
def XDP_PASS : Int := 2

/-- Modelled from the spec: `enum xdp_action` of `<linux/bpf.h>`; `XDP_TX = 3`. -/
def XDP_TX : Int := 3

/-- Modelled from the spec: `enum xdp_action` of `<linux/bpf.h>`;
`XDP_REDIRECT = 4`. -/
def XDP_REDIRECT : Int := 4

/-- Modelled from the spec: `ETH_P_ETHERCAT` of `<linux/if_ether.h>`, the
EtherCAT EtherType constant `0x88A4`. -/
def ETH_P_ETHERCAT : Nat := 0x88A4

/-- Modelled from the spec: `sizeof(struct ethhdr)` of `<linux/if_ether.h>`:
destination MAC (6 bytes), source MAC (6 bytes), EtherType (2 bytes). -/
def sizeof_ethhdr : Nat := 14

/-- Modelled from the spec: `offsetof(struct ethhdr, h_proto)`: the EtherType
field follows the two 6-byte MAC addresses. -/
def offsetof_h_proto : Nat := 12

/-- Modelled from the spec: `struct xdp_md` of `<linux/bpf.h>`; every field is a
`__u32`, read through `u32`. -/
structure xdp_md where
  data : Nat
  data_end : Nat
  data_meta : Nat
  ingress_ifindex : Nat
  rx_queue_index : Nat
  egress_ifindex : Nat
deriving DecidableEq, Repr

/-- Byte order of the host the program is compiled for. -/
inductive Endian where
  | little
  | big
deriving DecidableEq, Repr

/-- The other byte order. -/
def Endian.flip : Endian → Endian
  | .little => .big
  | .big => .little

/-! ## Machine state and execution -/

/-- The state an invocation runs in: the context structure `ctx` points to, the
byte memory (address to byte), and the log of packet addresses loaded so far
(most recent first). -/
structure Machine where
  ctx : xdp_md
  mem : Nat → Nat
  loads : List Nat

/-- The value of a `__u32` object. -/
def u32 (x : Nat) : Nat := x % 2 ^ 32

/-- The value of a `__u16` / `unsigned short` object. -/
def u16 (x : Nat) : Nat := x % 2 ^ 16

/-- A 64-bit address: pointer arithmetic wraps at `2^64`. -/
def ptr (x : Nat) : Nat := x % 2 ^ 64

/-- The cast `(void *)(long)ctx->data`. -/
def pkt_start (m : Machine) : Nat := ptr (u32 m.ctx.data)

/-- The cast `(void *)(long)ctx->data_end`. -/
def pkt_end (m : Machine) : Nat := ptr (u32 m.ctx.data_end)

/-- A computation over the machine: `none` is a fault (a load outside the
packet window), otherwise a value and the machine afterwards. -/
def Exec (α : Type) : Type := Machine → Option (α × Machine)

/-- Return without touching the machine. -/
def Exec.pure {α : Type} (a : α) : Exec α := fun m => some (a, m)

/-- Sequencing; a fault aborts the rest. -/
def Exec.bind {α β : Type} (x : Exec α) (f : α → Exec β) : Exec β := fun m =>
  match x m with
  | none => none
  | some (a, m1) => f a m1

instance : Monad Exec where
  pure := Exec.pure
  bind := Exec.bind

/-- Read the context structure. -/
def get_ctx : Exec xdp_md := fun m => some (m.ctx, m)

/-- One-byte load from packet memory; faults unless the address lies in
`[data, data_end)`.  A successful load is logged. -/
def load_u8 (a : Nat) : Exec Nat := fun m =>
  if pkt_start m ≤ a ∧ a < pkt_end m then
    some (m.mem a % 256, { m with loads := a :: m.loads })
  else
    none

/-- Two-byte load in host byte order (the load of a `__be16` field). -/
def load_u16 (e : Endian) (a : Nat) : Exec Nat := do
  let b0 ← load_u8 a
  let b1 ← load_u8 (ptr (a + 1))
  match e with
  | .little => pure (b0 + 256 * b1)
  | .big => pure (256 * b0 + b1)

/-- Modelled from the spec: `bpf_ntohs` of `<bpf/bpf_endian.h>` (libbpf, not in
the source tree), the 16-bit network-to-host conversion: a byte swap on a
little-endian host, the identity on a big-endian host. -/
def bpf_ntohs (e : Endian) (x : Nat) : Nat :=
  match e with
  | .little => (u16 x % 256) * 256 + u16 x / 256
  | .big => u16 x

/-! ## The two functions of the source file -/

/-- `inline int filter_eth_type(struct ethhdr *eth, unsigned short ether_type)`:
`return bpf_ntohs(eth->h_proto) == ether_type;` -/
def filter_eth_type (e : Endian) (eth : Nat) (ether_type : Nat) : Exec Int := do
  let h_proto ← load_u16 e (ptr (eth + offsetof_h_proto))
  pure (if bpf_ntohs e h_proto = u16 ether_type then 1 else 0)

/-- `int xtreme_filter(struct xdp_md *ctx)`. -/
def xtreme_filter (e : Endian) : Exec Int := do
  let ctx ← get_ctx
  let data_end := ptr (u32 ctx.data_end)
  let data := ptr (u32 ctx.data)
  let eth := data
  if ptr (eth + 1 * sizeof_ethhdr) > data_end then
    pure XDP_PASS
  else do
    let r ← filter_eth_type e eth ETH_P_ETHERCAT
    (if r ≠ 0 then pure () else pure ())
    pure XDP_PASS

/-! ## Vocabulary of the specification -/

/-- The value an invocation returns, if it does not fault. -/
def verdict (e : Endian) (m : Machine) : Option Int :=
  (xtreme_filter e m).map Prod.fst

/-- The frame length `data_end - data`, as an integer (negative when the bounds
are inverted). -/
def frame_len (m : Machine) : Int := (u32 m.ctx.data_end : Int) - (u32 m.ctx.data : Int)

/-- Byte `i` of the frame: the byte at address `data + i`. -/
def frame_byte (m : Machine) (i : Nat) : Nat := m.mem (pkt_start m + i) % 256

/-- Bytes 12-13 of the frame read as a big-endian 16-bit unsigned integer. -/
def ether_type_field (m : Machine) : Nat := 256 * frame_byte m 12 + frame_byte m 13

/-- The machine holding the frame `bytes` at address `base`, everything else
zero. -/
def frame_at (base : Nat) (bytes : List Nat) : Machine where
  ctx := { data := base, data_end := base + bytes.length, data_meta := 0,
           ingress_ifindex := 0, rx_queue_index := 0, egress_ifindex := 0 }
  mem := fun a => if base ≤ a then bytes.getD (a - base) 0 else 0
  loads := []

/-- The machine with bounds `data`, `data_end` and every memory byte equal to
`fill`. -/
def machine_of_bounds (data data_end fill : Nat) : Machine where
  ctx := { data := data, data_end := data_end, data_meta := 0,
           ingress_ifindex := 0, rx_queue_index := 0, egress_ifindex := 0 }
  mem := fun _ => fill
  loads := []

/-- A 14-byte frame with EtherType bytes `88 A4`. -/
def ethercat_frame : List Nat :=
  [0xFF, 0xFF, 0xFF, 0xFF, 0xFF, 0xFF, 0x02, 0x00, 0x00, 0x00, 0x00, 0x01, 0x88, 0xA4]

/-- A 14-byte frame with EtherType bytes `08 00` (IPv4). -/
def ipv4_frame : List Nat :=
  [0xFF, 0xFF, 0xFF, 0xFF, 0xFF, 0xFF, 0x02, 0x00, 0x00, 0x00, 0x00, 0x01, 0x08, 0x00]

/-- A 14-byte frame with EtherType bytes `A4 88` (EtherCAT, swapped). -/
def swapped_frame : List Nat :=
  [0xFF, 0xFF, 0xFF, 0xFF, 0xFF, 0xFF, 0x02, 0x00, 0x00, 0x00, 0x00, 0x01, 0xA4, 0x88]

/-- A 60-byte frame: the 12 address bytes, `88 A4`, and a 46-byte payload. -/
def padded_frame (payload : Nat) : List Nat :=
  [0x01, 0x02, 0x03, 0x04, 0x05, 0x06, 0x0A, 0x0B, 0x0C, 0x0D, 0x0E, 0x0F, 0x88, 0xA4]
    ++ List.replicate 46 payload

/-- Invoke `xtreme_filter` `n` times in a row, collecting the verdicts. -/
def invoke_repeatedly (e : Endian) : Nat → Exec (List Int)
  | 0 => pure []
  | n + 1 => do
    let v ← xtreme_filter e
    let vs ← invoke_repeatedly e n
    pure (v :: vs)

/-! ## Auxiliary lemmas -/

theorem Exec.bind_eq {α β : Type} (x : Exec α) (f : α → Exec β) (m : Machine) :
    (x >>= f) m = match x m with
      | none => none
      | some (a, m1) => f a m1 := rfl

theorem Exec.pure_eq {α : Type} (a : α) (m : Machine) :
    (pure a : Exec α) m = some (a, m) := rfl

theorem u32_lt (x : Nat) : u32 x < 2 ^ 32 := Nat.mod_lt _ (by norm_num)

theorem pkt_start_eq (m : Machine) : pkt_start m = u32 m.ctx.data := by
  have h := u32_lt m.ctx.data
  unfold pkt_start ptr
  exact Nat.mod_eq_of_lt (by omega)

theorem pkt_end_eq (m : Machine) : pkt_end m = u32 m.ctx.data_end := by
  have h := u32_lt m.ctx.data_end
  unfold pkt_end ptr
  exact Nat.mod_eq_of_lt (by omega)

theorem ptr_of_lt {x : Nat} (h : x < 2 ^ 64) : ptr x = x := Nat.mod_eq_of_lt h

/-- The address `eth + 1` does not wrap. -/
theorem hdr_end_eq (m : Machine) :
    ptr (pkt_start m + 1 * sizeof_ethhdr) = u32 m.ctx.data + 14 := by
  have h := u32_lt m.ctx.data
  rw [pkt_start_eq]
  unfold ptr sizeof_ethhdr
  exact Nat.mod_eq_of_lt (by omega)

/-- The guard of `xtreme_filter` is the test "shorter than 14 bytes". -/
theorem guard_iff (m : Machine) :
    ptr (pkt_start m + 1 * sizeof_ethhdr) > pkt_end m ↔ frame_len m < 14 := by
  rw [hdr_end_eq, pkt_end_eq]
  unfold frame_len
  omega

theorem load_u8_ok (m : Machine) (a : Nat) (h1 : pkt_start m ≤ a) (h2 : a < pkt_end m) :
    load_u8 a m = some (m.mem a % 256, { m with loads := a :: m.loads }) := by
  unfold load_u8
  rw [if_pos ⟨h1, h2⟩]

theorem load_u16_ok (e : Endian) (m : Machine) (a : Nat)
    (h1 : pkt_start m ≤ a) (h2 : a + 1 < pkt_end m) :
    load_u16 e a m =
      some ((match e with
              | .little => m.mem a % 256 + 256 * (m.mem (a + 1) % 256)
              | .big => 256 * (m.mem a % 256) + m.mem (a + 1) % 256),
            { m with loads := (a + 1) :: a :: m.loads }) := by
  have hend : pkt_end m < 2 ^ 64 := by
    rw [pkt_end_eq]; have := u32_lt m.ctx.data_end; omega
  have hp : ptr (a + 1) = a + 1 := ptr_of_lt (by omega)
  unfold load_u16
  rw [Exec.bind_eq, load_u8_ok m a h1 (by omega)]
  simp only []
  rw [Exec.bind_eq, hp, load_u8_ok _ (a + 1) (by simpa [pkt_start] using (by unfold pkt_start at h1; omega))
    (by simpa [pkt_end] using h2)]
  cases e <;> rfl

theorem bpf_ntohs_load (e : Endian) (b0 b1 : Nat) (h0 : b0 < 256) (h1 : b1 < 256) :
    bpf_ntohs e (match e with
      | .little => b0 + 256 * b1
      | .big => 256 * b0 + b1) = 256 * b0 + b1 := by
  cases e <;> simp only [bpf_ntohs, u16] <;> omega

/-- Exact result of `filter_eth_type` when the two bytes of `h_proto` lie in the
packet window. -/
theorem filter_eth_type_eq (e : Endian) (m : Machine) (eth t : Nat)
    (hlo : pkt_start m ≤ eth + 12) (hhi : eth + 13 < pkt_end m) :
    filter_eth_type e eth t m =
      some ((if 256 * (m.mem (eth + 12) % 256) + m.mem (eth + 13) % 256 = u16 t then 1 else 0),
            { m with loads := (eth + 13) :: (eth + 12) :: m.loads }) := by
  have hend : pkt_end m < 2 ^ 64 := by
    rw [pkt_end_eq]; have := u32_lt m.ctx.data_end; omega
  have hp : ptr (eth + offsetof_h_proto) = eth + 12 := ptr_of_lt (by unfold offsetof_h_proto; omega)
  unfold filter_eth_type
  rw [Exec.bind_eq, hp, load_u16_ok e m (eth + 12) hlo (by omega)]
  simp only [Exec.pure_eq]
  rw [bpf_ntohs_load e _ _ (Nat.mod_lt _ (by norm_num)) (Nat.mod_lt _ (by norm_num))]
  rfl

/-- A frame shorter than the header: the guard returns at once, nothing is
loaded. -/
theorem xtreme_filter_short (e : Endian) (m : Machine) (h : frame_len m < 14) :
    xtreme_filter e m = some (XDP_PASS, m) := by
  have hg := (guard_iff m).mpr h
  unfold pkt_start pkt_end at hg
  unfold xtreme_filter
  rw [Exec.bind_eq]
  simp only [get_ctx]
  rw [if_pos hg]
  rfl

/-- A frame of at least 14 bytes: `h_proto` is loaded, the result is
`XDP_PASS`. -/
theorem xtreme_filter_long (e : Endian) (m : Machine) (h : 14 ≤ frame_len m) :
    xtreme_filter e m =
      some (XDP_PASS,
            { m with loads := (pkt_start m + 13) :: (pkt_start m + 12) :: m.loads }) := by
  have hg : ¬ ptr (pkt_start m + 1 * sizeof_ethhdr) > pkt_end m := by
    rw [guard_iff]; omega
  have hhi : pkt_start m + 13 < pkt_end m := by
    rw [pkt_start_eq, pkt_end_eq]; unfold frame_len at h; omega
  unfold pkt_start pkt_end at hg
  unfold xtreme_filter
  rw [Exec.bind_eq]
  simp only [get_ctx]
  rw [if_neg hg, Exec.bind_eq]
  have hf := filter_eth_type_eq e m (pkt_start m) ETH_P_ETHERCAT (by omega) hhi
  unfold pkt_start at hf
  rw [hf]
  simp only []
  split <;> rfl

theorem verdict_eq_pass (e : Endian) (m : Machine) : verdict e m = some XDP_PASS := by
  unfold verdict
  by_cases h : frame_len m < 14
  · rw [xtreme_filter_short e m h]; rfl
  · rw [xtreme_filter_long e m (by omega)]; rfl

/-- Without the guard the header load faults: on a frame shorter than 14 bytes
`filter_eth_type` applied to the frame start reads outside the packet window. -/
theorem filter_eth_type_unguarded_fault (e : Endian) (m : Machine) (t : Nat)
    (h : frame_len m < 14) : filter_eth_type e (pkt_start m) t m = none := by
  have hs := pkt_start_eq m
  have he := pkt_end_eq m
  have h1 := u32_lt m.ctx.data
  have hp : ptr (pkt_start m + offsetof_h_proto) = pkt_start m + 12 :=
    ptr_of_lt (by unfold offsetof_h_proto; omega)
  have hq : ptr (pkt_start m + 12 + 1) = pkt_start m + 13 := ptr_of_lt (by omega)
  have hge : pkt_end m ≤ pkt_start m + 13 := by
    rw [hs, he]; unfold frame_len at h; omega
  unfold filter_eth_type load_u16
  rw [Exec.bind_eq, Exec.bind_eq, hp]
  by_cases hin : pkt_start m + 12 < pkt_end m
  · rw [load_u8_ok m _ (by omega) hin]
    simp only []
    rw [Exec.bind_eq, hq]
    have hno : ¬ (pkt_start m ≤ pkt_start m + 13 ∧ pkt_start m + 13 < pkt_end m) := by omega
    simp only [load_u8, pkt_start, pkt_end] at hno ⊢
    rw [if_neg hno]
  · have hno : ¬ (pkt_start m ≤ pkt_start m + 12 ∧ pkt_start m + 12 < pkt_end m) := by omega
    simp only [load_u8]
    rw [if_neg hno]

/-- An invocation returns `XDP_PASS` and changes neither the context nor the
memory. -/
theorem xtreme_filter_frame (e : Endian) (m : Machine) :
    ∃ m1, xtreme_filter e m = some (XDP_PASS, m1) ∧ m1.ctx = m.ctx ∧ m1.mem = m.mem := by
  by_cases h : frame_len m < 14
  · exact ⟨m, xtreme_filter_short e m h, rfl, rfl⟩
  · exact ⟨_, xtreme_filter_long e m (by omega), rfl, rfl⟩

theorem invoke_repeatedly_eq (e : Endian) (n : Nat) (m : Machine) :
    ∃ m1, invoke_repeatedly e n m = some (List.replicate n XDP_PASS, m1) ∧
      m1.ctx = m.ctx ∧ m1.mem = m.mem := by
  induction n generalizing m with
  | zero => exact ⟨m, rfl, rfl, rfl⟩
  | succ k ih =>
    obtain ⟨m1, hrun, hctx, hmem⟩ := xtreme_filter_frame e m
    obtain ⟨m2, hrest, hctx2, hmem2⟩ := ih m1
    refine ⟨m2, ?_, hctx2.trans hctx, hmem2.trans hmem⟩
    unfold invoke_repeatedly
    rw [Exec.bind_eq, hrun]
    simp only []
    rw [Exec.bind_eq, hrest]
    rfl

/-! ## The claims -/

/-- C1 (evaluation at the failing input): the 14-byte frame with EtherType
bytes `08 00` is at least 14 bytes long, its EtherType field is `0x0800`, not
`0x88A4`, and `xtreme_filter` returns `XDP_PASS` on it, which is not
`XDP_DROP`. -/
theorem xtreme_filter_passes_ipv4 :
    14 ≤ frame_len (frame_at 4096 ipv4_frame) ∧
    ether_type_field (frame_at 4096 ipv4_frame) = 0x0800 ∧
    ether_type_field (frame_at 4096 ipv4_frame) ≠ 0x88A4 ∧
    verdict .little (frame_at 4096 ipv4_frame) = some XDP_PASS ∧
    verdict .big (frame_at 4096 ipv4_frame) = some XDP_PASS ∧
    verdict .little (frame_at 4096 ipv4_frame) ≠ some XDP_DROP ∧
    verdict .big (frame_at 4096 ipv4_frame) ≠ some XDP_DROP := by
  decide

/-- C2: for every frame of at least 14 bytes whose bytes 12-13, read as a
big-endian 16-bit integer, equal `0x88A4`, `xtreme_filter` returns `XDP_PASS`,
whatever the other bytes are (and `filter_eth_type` reports the match). -/
theorem xtreme_filter_admits_ethercat (e : Endian) (m : Machine)
    (hlen : 14 ≤ frame_len m) (hty : ether_type_field m = 0x88A4) :
    verdict e m = some XDP_PASS ∧
    (filter_eth_type e (pkt_start m) ETH_P_ETHERCAT m).map Prod.fst = some 1 := by
  refine ⟨verdict_eq_pass e m, ?_⟩
  have hhi : pkt_start m + 13 < pkt_end m := by
    rw [pkt_start_eq, pkt_end_eq]; unfold frame_len at hlen; omega
  rw [filter_eth_type_eq e m (pkt_start m) ETH_P_ETHERCAT (by omega) hhi]
  unfold ether_type_field frame_byte at hty
  rw [hty]
  rfl

/-- Witness for C2: the 14-byte frame `.. 88 A4` on a little-endian host. -/
theorem xtreme_filter_admits_ethercat_witness :
    14 ≤ frame_len (frame_at 4096 ethercat_frame) ∧
    ether_type_field (frame_at 4096 ethercat_frame) = 0x88A4 ∧
    (verdict .little (frame_at 4096 ethercat_frame) = some XDP_PASS ∧
     (filter_eth_type .little (pkt_start (frame_at 4096 ethercat_frame)) ETH_P_ETHERCAT
        (frame_at 4096 ethercat_frame)).map Prod.fst = some 1) :=
  ⟨by decide, by decide,
    xtreme_filter_admits_ethercat .little (frame_at 4096 ethercat_frame) (by decide) (by decide)⟩

/-- C3: fail-open on truncation: for every frame shorter than 14 bytes
(inverted bounds included) `xtreme_filter` returns `XDP_PASS`, whatever the
memory content; nothing is loaded. -/
theorem xtreme_filter_fail_open (e : Endian) (m : Machine) (hlen : frame_len m < 14) :
    verdict e m = some XDP_PASS ∧ xtreme_filter e m = some (XDP_PASS, m) :=
  ⟨verdict_eq_pass e m, xtreme_filter_short e m hlen⟩

/-- Witness for C3: the 13-byte frame and the 0-byte frame. -/
theorem xtreme_filter_fail_open_witness :
    (frame_len (frame_at 4096 (ethercat_frame.take 13)) = 13 ∧
     verdict .little (frame_at 4096 (ethercat_frame.take 13)) = some XDP_PASS) ∧
    (frame_len (frame_at 4096 []) = 0 ∧
     verdict .little (frame_at 4096 []) = some XDP_PASS) :=
  ⟨⟨by decide,
     (xtreme_filter_fail_open .little (frame_at 4096 (ethercat_frame.take 13)) (by decide)).1⟩,
   ⟨by decide, (xtreme_filter_fail_open .little (frame_at 4096 []) (by decide)).1⟩⟩

/-- C4 (evaluation at the failing input): on the 14-byte frame whose bytes 12
and 13 are `A4 88`, `filter_eth_type` reports no match on either host byte
order (the conversion is applied), yet `xtreme_filter` returns `XDP_PASS`, not
`XDP_DROP`; the frame with bytes `88 A4` is matched and passed. -/
theorem xtreme_filter_passes_swapped :
    14 ≤ frame_len (frame_at 4096 swapped_frame) ∧
    frame_byte (frame_at 4096 swapped_frame) 12 = 0xA4 ∧
    frame_byte (frame_at 4096 swapped_frame) 13 = 0x88 ∧
    (filter_eth_type .little 4096 ETH_P_ETHERCAT (frame_at 4096 swapped_frame)).map Prod.fst
      = some 0 ∧
    (filter_eth_type .big 4096 ETH_P_ETHERCAT (frame_at 4096 swapped_frame)).map Prod.fst
      = some 0 ∧
    verdict .little (frame_at 4096 swapped_frame) = some XDP_PASS ∧
    verdict .big (frame_at 4096 swapped_frame) = some XDP_PASS ∧
    verdict .little (frame_at 4096 swapped_frame) ≠ some XDP_DROP ∧
    verdict .big (frame_at 4096 swapped_frame) ≠ some XDP_DROP ∧
    (filter_eth_type .little 4096 ETH_P_ETHERCAT (frame_at 4096 ethercat_frame)).map Prod.fst
      = some 1 ∧
    verdict .little (frame_at 4096 ethercat_frame) = some XDP_PASS := by
  decide

/-- C5: bounds-check safety: `xtreme_filter` never faults (the out-of-bounds
branch of the packet load is unreachable), every address it loads lies in the
packet window `[data, data_end)` and is loaded only when the check
`data + 14 <= data_end` has succeeded in this invocation; on a frame of at
least 14 bytes the loads are exactly the two bytes of `h_proto`. -/
theorem xtreme_filter_loads_guarded (e : Endian) (m : Machine) :
    ∃ v m1 new, xtreme_filter e m = some (v, m1) ∧ m1.loads = new ++ m.loads ∧
      (∀ a ∈ new, ptr (pkt_start m + 1 * sizeof_ethhdr) ≤ pkt_end m ∧
        pkt_start m ≤ a ∧ a < pkt_end m) ∧
      (frame_len m < 14 → new = []) ∧
      (14 ≤ frame_len m → new = [pkt_start m + 13, pkt_start m + 12]) := by
  by_cases h : frame_len m < 14
  · refine ⟨XDP_PASS, m, [], xtreme_filter_short e m h, rfl, ?_, fun _ => rfl, ?_⟩
    · intro a ha; cases ha
    · intro h14; omega
  · have h14 : 14 ≤ frame_len m := by omega
    have hg : ptr (pkt_start m + 1 * sizeof_ethhdr) ≤ pkt_end m := by
      have := guard_iff m
      omega
    have hhi : pkt_start m + 13 < pkt_end m := by
      rw [pkt_start_eq, pkt_end_eq]; unfold frame_len at h14; omega
    refine ⟨XDP_PASS, _, [pkt_start m + 13, pkt_start m + 12],
      xtreme_filter_long e m h14, rfl, ?_, fun h0 => absurd h0 h, fun _ => rfl⟩
    intro a ha
    simp only [List.mem_cons, List.mem_singleton, List.not_mem_nil, or_false] at ha
    refine ⟨hg, ?_, ?_⟩ <;> omega

/-- C6: totality and verdict range: on every machine (every memory content,
every pair of bounds) `xtreme_filter` returns a value, the value is `XDP_PASS`
or `XDP_DROP`, and it is none of `XDP_ABORTED`, `XDP_TX`, `XDP_REDIRECT`. -/
theorem xtreme_filter_total_two_verdicts (e : Endian) (m : Machine) :
    ∃ v m1, xtreme_filter e m = some (v, m1) ∧ (v = XDP_PASS ∨ v = XDP_DROP) ∧
      v ≠ XDP_ABORTED ∧ v ≠ XDP_TX ∧ v ≠ XDP_REDIRECT := by
  obtain ⟨m1, hrun, _, _⟩ := xtreme_filter_frame e m
  exact ⟨XDP_PASS, m1, hrun, Or.inl rfl, by decide, by decide, by decide⟩

/-- C7: payload independence: two frames of at least 14 bytes that agree on
bytes 12 and 13 get the same verdict (and the same `filter_eth_type` result),
whatever their lengths, addresses and remaining bytes are; a 60-byte frame with
EtherType bytes `88 A4` is passed. -/
theorem xtreme_filter_payload_independent (e : Endian) (m1 m2 : Machine)
    (h1 : 14 ≤ frame_len m1) (h2 : 14 ≤ frame_len m2)
    (h12 : frame_byte m1 12 = frame_byte m2 12) (h13 : frame_byte m1 13 = frame_byte m2 13) :
    (∃ v, verdict e m1 = some v ∧ verdict e m2 = some v) ∧
    (filter_eth_type e (pkt_start m1) ETH_P_ETHERCAT m1).map Prod.fst =
      (filter_eth_type e (pkt_start m2) ETH_P_ETHERCAT m2).map Prod.fst ∧
    (frame_len m1 = 60 → frame_byte m1 12 = 0x88 → frame_byte m1 13 = 0xA4 →
      verdict e m1 = some XDP_PASS) := by
  have hhi1 : pkt_start m1 + 13 < pkt_end m1 := by
    rw [pkt_start_eq, pkt_end_eq]; unfold frame_len at h1; omega
  have hhi2 : pkt_start m2 + 13 < pkt_end m2 := by
    rw [pkt_start_eq, pkt_end_eq]; unfold frame_len at h2; omega
  refine ⟨⟨XDP_PASS, verdict_eq_pass e m1, verdict_eq_pass e m2⟩, ?_,
    fun _ _ _ => verdict_eq_pass e m1⟩
  rw [filter_eth_type_eq e m1 (pkt_start m1) ETH_P_ETHERCAT (by omega) hhi1,
    filter_eth_type_eq e m2 (pkt_start m2) ETH_P_ETHERCAT (by omega) hhi2]
  unfold frame_byte at h12 h13
  rw [h12, h13]
  rfl

/-- Witness for C7: a 60-byte frame and a 14-byte frame at another address, with
other MAC bytes, both with bytes 12-13 equal to `88 A4`. -/
theorem xtreme_filter_payload_independent_witness :
    frame_len (frame_at 4096 (padded_frame 0x5A)) = 60 ∧
    frame_len (frame_at 8192 ethercat_frame) = 14 ∧
    frame_byte (frame_at 4096 (padded_frame 0x5A)) 12 = 0x88 ∧
    frame_byte (frame_at 4096 (padded_frame 0x5A)) 13 = 0xA4 ∧
    verdict .little (frame_at 4096 (padded_frame 0x5A)) = some XDP_PASS ∧
    ∃ v, verdict .little (frame_at 4096 (padded_frame 0x5A)) = some v ∧
      verdict .little (frame_at 8192 ethercat_frame) = some v :=
  ⟨by decide, by decide, by decide, by decide,
    (xtreme_filter_payload_independent .little (frame_at 4096 (padded_frame 0x5A))
      (frame_at 8192 ethercat_frame) (by decide) (by decide) (by decide) (by decide)).2.2
      (by decide) (by decide) (by decide),
    (xtreme_filter_payload_independent .little (frame_at 4096 (padded_frame 0x5A))
      (frame_at 8192 ethercat_frame) (by decide) (by decide) (by decide) (by decide)).1⟩

/-- C8: no side effects: after any number `n` of consecutive invocations of
`xtreme_filter` the context and every byte of memory are what they were before,
and every invocation returned the verdict of the first one. -/
theorem xtreme_filter_no_side_effects (e : Endian) (m : Machine) (n : Nat) :
    ∃ v, verdict e m = some v ∧
      ∃ m1, invoke_repeatedly e n m = some (List.replicate n v, m1) ∧
        m1.ctx = m.ctx ∧ m1.mem = m.mem :=
  ⟨XDP_PASS, verdict_eq_pass e m, invoke_repeatedly_eq e n m⟩

/-- C9: the literal behaviour: for every memory content and every pair of
bounds `xtreme_filter` returns `XDP_PASS`, on either host byte order. -/
theorem xtreme_filter_always_pass (e : Endian) (m : Machine) :
    verdict e m = some XDP_PASS := by
  unfold verdict
  obtain ⟨m1, hrun, _, _⟩ := xtreme_filter_frame e m
  rw [hrun]
  rfl

/-- C10: when the two bytes of `eth->h_proto` (offsets 12 and 13 from `eth`)
lie in the packet window and `ether_type` is an `unsigned short`,
`filter_eth_type` returns 1 if `256 * b12 + b13 = ether_type` and 0 otherwise;
the result is the same on the other host byte order, and the same on any other
machine and header address with the same two bytes. -/
theorem filter_eth_type_big_endian_compare (e : Endian) (m : Machine) (eth t : Nat)
    (ht : t < 65536) (hlo : pkt_start m ≤ eth + 12) (hhi : eth + 13 < pkt_end m) :
    (filter_eth_type e eth t m).map Prod.fst =
      some (if 256 * (m.mem (eth + 12) % 256) + m.mem (eth + 13) % 256 = t then 1 else 0) ∧
    (filter_eth_type e.flip eth t m).map Prod.fst = (filter_eth_type e eth t m).map Prod.fst ∧
    ∀ (m2 : Machine) (eth2 : Nat), pkt_start m2 ≤ eth2 + 12 → eth2 + 13 < pkt_end m2 →
      m2.mem (eth2 + 12) % 256 = m.mem (eth + 12) % 256 →
      m2.mem (eth2 + 13) % 256 = m.mem (eth + 13) % 256 →
      (filter_eth_type e eth2 t m2).map Prod.fst = (filter_eth_type e eth t m).map Prod.fst := by
  have hu : u16 t = t := Nat.mod_eq_of_lt ht
  refine ⟨?_, ?_, ?_⟩
  · rw [filter_eth_type_eq e m eth t hlo hhi, hu]; rfl
  · rw [filter_eth_type_eq e m eth t hlo hhi, filter_eth_type_eq e.flip m eth t hlo hhi]
  · intro m2 eth2 hlo2 hhi2 hb12 hb13
    rw [filter_eth_type_eq e m eth t hlo hhi, filter_eth_type_eq e m2 eth2 t hlo2 hhi2,
      hb12, hb13]
    rfl

/-- Witness for C10: the header of the 14-byte frame `.. 88 A4` compared with
`0x88A4` gives 1 on both host byte orders. -/
theorem filter_eth_type_big_endian_compare_witness :
    (0x88A4 : Nat) < 65536 ∧
    pkt_start (frame_at 4096 ethercat_frame) ≤ 4096 + 12 ∧
    4096 + 13 < pkt_end (frame_at 4096 ethercat_frame) ∧
    (filter_eth_type .little 4096 0x88A4 (frame_at 4096 ethercat_frame)).map Prod.fst = some 1 ∧
    (filter_eth_type .big 4096 0x88A4 (frame_at 4096 ethercat_frame)).map Prod.fst =
      (filter_eth_type .little 4096 0x88A4 (frame_at 4096 ethercat_frame)).map Prod.fst :=
  ⟨by decide, by decide, by decide,
    (filter_eth_type_big_endian_compare .little (frame_at 4096 ethercat_frame) 4096 0x88A4
      (by decide) (by decide) (by decide)).1,
    (filter_eth_type_big_endian_compare .little (frame_at 4096 ethercat_frame) 4096 0x88A4
      (by decide) (by decide) (by decide)).2.1⟩

/-- C11: exactness of the bounds check: for all 32-bit context values `data`
and `data_end`, widening to 64-bit addresses keeps both values, `data + 14`
does not wrap, and the guard `(void *)(eth + 1) > data_end` is true exactly when
the integer difference `data_end - data` is less than 14 (inverted bounds
included); so `xtreme_filter` takes the early return, loading nothing, on every
frame shorter than 14 bytes, and goes on to load `h_proto` on every frame of 14
bytes or more. -/
theorem xtreme_filter_guard_exact (e : Endian) (m : Machine) (data data_end : Nat)
    (hd : data < 2 ^ 32) (hde : data_end < 2 ^ 32)
    (hdata : m.ctx.data = data) (hend : m.ctx.data_end = data_end) :
    pkt_start m = data ∧ pkt_end m = data_end ∧
    ptr (pkt_start m + 1 * sizeof_ethhdr) = data + 14 ∧
    data + 14 < 2 ^ 64 ∧
    (ptr (pkt_start m + 1 * sizeof_ethhdr) > pkt_end m ↔ (data_end : Int) - (data : Int) < 14) ∧
    (data_end < data → ptr (pkt_start m + 1 * sizeof_ethhdr) > pkt_end m) ∧
    ((data_end : Int) - (data : Int) < 14 → xtreme_filter e m = some (XDP_PASS, m)) ∧
    (14 ≤ (data_end : Int) - (data : Int) →
      xtreme_filter e m =
        some (XDP_PASS, { m with loads := (data + 13) :: (data + 12) :: m.loads })) := by
  have hs : pkt_start m = data := by
    rw [pkt_start_eq, hdata]; exact Nat.mod_eq_of_lt hd
  have hpe : pkt_end m = data_end := by
    rw [pkt_end_eq, hend]; exact Nat.mod_eq_of_lt hde
  have hlen : frame_len m = (data_end : Int) - (data : Int) := by
    unfold frame_len
    rw [← pkt_start_eq, ← pkt_end_eq, hs, hpe]
  have hhdr : ptr (pkt_start m + 1 * sizeof_ethhdr) = data + 14 := by
    rw [hdr_end_eq, ← pkt_start_eq, hs]
  have hiff := guard_iff m
  rw [hlen] at hiff
  refine ⟨hs, hpe, hhdr, by omega, hiff, ?_, ?_, ?_⟩
  · intro hinv
    exact hiff.mpr (by omega)
  · intro hshort
    exact xtreme_filter_short e m (by rw [hlen]; exact hshort)
  · intro hlong
    have hrun := xtreme_filter_long e m (by rw [hlen]; exact hlong)
    rw [hs] at hrun
    exact hrun

/-- Witness for C11: `data = data_end = 2^32 - 1`, a 0-byte frame at the top of
the 32-bit range: `data + 14` exceeds `2^32` without wrapping, the guard is
true and nothing is loaded. -/
theorem xtreme_filter_guard_exact_witness :
    (4294967295 : Nat) < 2 ^ 32 ∧
    (machine_of_bounds 4294967295 4294967295 0).ctx.data = 4294967295 ∧
    (machine_of_bounds 4294967295 4294967295 0).ctx.data_end = 4294967295 ∧
    ptr (pkt_start (machine_of_bounds 4294967295 4294967295 0) + 1 * sizeof_ethhdr)
      = 4294967295 + 14 ∧
    ptr (pkt_start (machine_of_bounds 4294967295 4294967295 0) + 1 * sizeof_ethhdr)
      > pkt_end (machine_of_bounds 4294967295 4294967295 0) ∧
    xtreme_filter .little (machine_of_bounds 4294967295 4294967295 0)
      = some (XDP_PASS, machine_of_bounds 4294967295 4294967295 0) :=
  ⟨by decide, rfl, rfl,
    (xtreme_filter_guard_exact .little (machine_of_bounds 4294967295 4294967295 0)
      4294967295 4294967295 (by decide) (by decide) rfl rfl).2.2.1,
    (xtreme_filter_guard_exact .little (machine_of_bounds 4294967295 4294967295 0)
      4294967295 4294967295 (by decide) (by decide) rfl rfl).2.2.2.2.1.mpr (by decide),
    (xtreme_filter_guard_exact .little (machine_of_bounds 4294967295 4294967295 0)
      4294967295 4294967295 (by decide) (by decide) rfl rfl).2.2.2.2.2.2.1 (by decide)⟩

end XdpFilterEthercat
